import Mathlib

/-!
Verification development for the Lua plugin subsystem of the asset-manager
core library (`core/src/plugin/{mod,loader,manager}.rs`).

The development shallowly embeds the plugin loader and the plugin manager:

* The sandbox layer models the global namespace of the embedded Lua
  interpreter as an association list from global names to values tagged
  with the capabilities (filesystem read/write, process execution,
  arbitrary code loading) reachable through them, and embeds
  `PluginLoader::setup_sandbox`.
* The manager layer models a loader session as its global namespace
  (data values and callable functions), a Lua chunk by its observable
  behaviour (evaluation result plus the globals it defines), the
  filesystem by explicit directory models, and embeds `load_from_dir`,
  `load_plugin_code`, `call_function`, and the `PluginManager`
  operations `load_all`, `load_plugin`, `set_plugin_enabled`,
  `list_plugins` and `broadcast_event`.

Serialisation of asset records and of arbitrary JSON values
(`serde_json::to_string`) is treated abstractly via encoder parameters;
the JSON encoding of plain strings (the only case the claims inspect
concretely) is modelled faithfully, including serde_json's escaping.
-/

set_option autoImplicit false

namespace AssetManager

/-! ## Association lists (model of `HashMap<String, _>` and Lua tables) -/

/-- Look up the first binding of key `k` in an association list. -/
def alistLookup {β : Type} : List (String × β) → String → Option β
  | [], _ => none
  | p :: ps, k => if p.1 = k then some p.2 else alistLookup ps k

/-- Insert binding `(k, v)`: replace the first binding of `k` in place if one
exists, otherwise append at the end (model of `HashMap::insert`). -/
def alistInsert {β : Type} : List (String × β) → String → β → List (String × β)
  | [], k, v => [(k, v)]
  | p :: ps, k, v => if p.1 = k then (k, v) :: ps else p :: alistInsert ps k v

/-- Update the first binding of `k` with `f` (model of `HashMap::get_mut`
followed by a field mutation); no change when `k` is unbound. -/
def alistUpdate {β : Type} (f : β → β) : List (String × β) → String → List (String × β)
  | [], _ => []
  | p :: ps, k => if p.1 = k then (k, f p.2) :: ps else p :: alistUpdate f ps k

/-- The keys of an association list are pairwise distinct (`HashMap` key
uniqueness invariant). -/
def KeysNodup {β : Type} (ps : List (String × β)) : Prop :=
  (ps.map Prod.fst).Nodup

@[simp] theorem alistLookup_nil {β : Type} (k : String) :
    alistLookup ([] : List (String × β)) k = none := rfl

@[simp] theorem alistLookup_cons {β : Type} (p : String × β) (ps : List (String × β))
    (k : String) :
    alistLookup (p :: ps) k = if p.1 = k then some p.2 else alistLookup ps k := rfl

@[simp] theorem alistInsert_nil {β : Type} (k : String) (v : β) :
    alistInsert ([] : List (String × β)) k v = [(k, v)] := rfl

@[simp] theorem alistInsert_cons {β : Type} (p : String × β) (ps : List (String × β))
    (k : String) (v : β) :
    alistInsert (p :: ps) k v =
      if p.1 = k then (k, v) :: ps else p :: alistInsert ps k v := rfl

theorem alistLookup_insert_self {β : Type} (ps : List (String × β)) (k : String) (v : β) :
    alistLookup (alistInsert ps k v) k = some v := by
  induction ps with
  | nil => simp [alistInsert, alistLookup]
  | cons p ps ih =>
      by_cases h : p.1 = k
      · simp [alistInsert, alistLookup, h]
      · simp [alistInsert, alistLookup, h, ih]

theorem alistLookup_insert_ne {β : Type} (ps : List (String × β)) (k k' : String) (v : β)
    (h : k ≠ k') : alistLookup (alistInsert ps k v) k' = alistLookup ps k' := by
  induction ps with
  | nil => simp [alistInsert, alistLookup, h]
  | cons p ps ih =>
      by_cases hp : p.1 = k
      · rw [alistInsert_cons, if_pos hp]
        simp only [alistLookup_cons]
        rw [if_neg h, if_neg (fun hh => h (hp.symm.trans hh) : ¬ p.1 = k')]
      · rw [alistInsert_cons, if_neg hp]
        simp only [alistLookup_cons, ih]

theorem alistInsert_key_mem {β : Type} (ps : List (String × β)) (k : String) (v : β)
    (a : String) :
    a ∈ (alistInsert ps k v).map Prod.fst → a ∈ ps.map Prod.fst ∨ a = k := by
  induction ps with
  | nil =>
      intro h
      simp only [alistInsert, List.map_cons, List.map_nil, List.mem_singleton] at h
      exact Or.inr h
  | cons p ps ih =>
      intro h
      by_cases hp : p.1 = k
      · rw [alistInsert_cons, if_pos hp] at h
        simp only [List.map_cons, List.mem_cons] at h
        rcases h with h | h
        · exact Or.inr h
        · exact Or.inl (List.mem_cons_of_mem _ h)
      · rw [alistInsert_cons, if_neg hp] at h
        simp only [List.map_cons, List.mem_cons] at h
        rcases h with h | h
        · exact Or.inl (h ▸ List.mem_cons_self _ _)
        · rcases ih h with h2 | h2
          · exact Or.inl (List.mem_cons_of_mem _ h2)
          · exact Or.inr h2

theorem alistInsert_keys_nodup {β : Type} (ps : List (String × β)) (k : String) (v : β) :
    KeysNodup ps → KeysNodup (alistInsert ps k v) := by
  induction ps with
  | nil => intro _; simp [alistInsert, KeysNodup]
  | cons p ps ih =>
      intro h
      unfold KeysNodup at h ⊢
      simp only [List.map_cons, List.nodup_cons] at h
      by_cases hp : p.1 = k
      · rw [alistInsert_cons, if_pos hp]
        simp only [List.map_cons, List.nodup_cons]
        exact ⟨hp ▸ h.1, h.2⟩
      · rw [alistInsert_cons, if_neg hp]
        simp only [List.map_cons, List.nodup_cons]
        exact ⟨fun hmem => (alistInsert_key_mem ps k v p.1 hmem).elim h.1 hp, ih h.2⟩

/-! ## Sandbox layer (`PluginLoader::setup_sandbox`, loader.rs lines 26-53)

The global namespace of the embedded interpreter is modelled as an
association list from global names to values tagged with the capabilities
reachable through them. -/

/-- Capabilities a global binding can grant to guest code. -/
inductive Cap where
  | fsRead
  | fsWrite
  | procExec
  | codeLoad
deriving DecidableEq, Repr

/-- Value bound to a global name in the sandbox-layer model: `snil` is Lua
`nil`; `sfn caps` a function whose invocation can exercise `caps`;
`stable caps` a library table whose members can exercise `caps`;
`hostLog`/`hostPrint` the two host bridge functions installed by
`setup_sandbox`. -/
inductive SVal where
  | snil
  | sfn (caps : List Cap)
  | stable (caps : List Cap)
  | hostLog
  | hostPrint
deriving DecidableEq, Repr

/-- Capabilities reachable through one bound value. The host bridge
functions only write to the host's structured logs. -/
def svalCaps : SVal → List Cap
  | .snil => []
  | .sfn caps => caps
  | .stable caps => caps
  | .hostLog => []
  | .hostPrint => []

/-- Model of the global environment produced by `mlua::Lua::new()`, which
loads the "safe" subset of the Lua 5.4 standard libraries (everything but
`debug`): the base library, plus `string`, `table`, `math`, `coroutine`,
`utf8`, `os`, `io` and `package`.  Capability tags record what each
binding reaches: `os` exposes process control (`os.execute`/`os.exit`)
and filesystem operations (`os.remove`/`os.rename`/`os.tmpname`); `io`
file reading and writing; `loadfile`/`dofile` read a file and execute it
as code; `load` compiles an arbitrary chunk from a string; `require` (with
the `package` table backing it) searches the filesystem for a module file
and executes it. Purely computational base functions and libraries carry
no capabilities. `package.loadlib` (native-library loading) is not
modelled. -/
def luaNewGlobals : List (String × SVal) :=
  [ ("assert", .sfn []),
    ("collectgarbage", .sfn []),
    ("dofile", .sfn [.fsRead, .codeLoad]),
    ("error", .sfn []),
    ("getmetatable", .sfn []),
    ("ipairs", .sfn []),
    ("load", .sfn [.codeLoad]),
    ("loadfile", .sfn [.fsRead, .codeLoad]),
    ("next", .sfn []),
    ("pairs", .sfn []),
    ("pcall", .sfn []),
    ("print", .sfn []),
    ("rawequal", .sfn []),
    ("rawget", .sfn []),
    ("rawlen", .sfn []),
    ("rawset", .sfn []),
    ("require", .sfn [.fsRead, .codeLoad]),
    ("select", .sfn []),
    ("setmetatable", .sfn []),
    ("tonumber", .sfn []),
    ("tostring", .sfn []),
    ("type", .sfn []),
    ("xpcall", .sfn []),
    ("coroutine", .stable []),
    ("string", .stable []),
    ("table", .stable []),
    ("math", .stable []),
    ("utf8", .stable []),
    ("os", .stable [.procExec, .fsRead, .fsWrite]),
    ("io", .stable [.fsRead, .fsWrite]),
    ("package", .stable [.fsRead, .codeLoad]) ]

/-- Embedding of `PluginLoader::setup_sandbox` (loader.rs lines 26-53):
sets the globals `os`, `io`, `loadfile` and `dofile` to `nil`, then
installs the host bridge functions `log` and `print`, in the source's
order. It runs inside `PluginLoader::new` before any plugin code is
evaluated. -/
def setup_sandbox (env : List (String × SVal)) : List (String × SVal) :=
  alistInsert (alistInsert (alistInsert (alistInsert (alistInsert (alistInsert
    env "os" .snil) "io" .snil) "loadfile" .snil) "dofile" .snil)
    "log" .hostLog) "print" .hostPrint

/-- The global namespace a freshly constructed session presents to plugin
code: `setup_sandbox` applied to the interpreter's initial environment. -/
def sandboxedGlobals : List (String × SVal) :=
  setup_sandbox luaNewGlobals

/-- A script running in environment `env` can exercise capability `c`:
some global binding reaches `c`. In this model guest code reaches host
capabilities only through the global namespace. -/
def canAccess (env : List (String × SVal)) (c : Cap) : Bool :=
  env.any (fun p => (svalCaps p.2).contains c)

/-! ## Loader sessions (`PluginLoader`, loader.rs) -/

/-- Model of a Lua data value, as far as the host inspects one: the
descriptor extraction distinguishes strings, numbers, tables and
"anything else". A Lua number (integer or float) is represented by its
Lua `tostring` rendering, which is the number's only observable here:
the loader touches numbers solely through string coercion. `other`
stands for values of any further Lua type (booleans, functions,
userdata, ...), none of which convert to the host types the loader
requests. -/
inductive LuaValue where
  | nil
  | str (s : String)
  | number (repr : String)
  | table (fields : List (String × LuaValue))
  | other

/-- Argument shape passed across the host-to-guest boundary by the
manager: either no argument (`()` in `call_plugin_lifecycle`) or one
string (the JSON payload in `call_plugin_with_json`/`call_plugin_custom`). -/
inductive CallArg where
  | unit
  | str (s : String)
deriving DecidableEq, Repr

/-- Outcome of executing a located guest function: normal return, or a
guest-side failure (a raised Lua error). -/
inductive FnOutcome where
  | ok
  | raise (msg : String)

/-- Value bound to a global name in a live session: plain data, or a
callable function modelled by its behaviour on each argument. -/
inductive GVal where
  | data (v : LuaValue)
  | gfn (body : CallArg → FnOutcome)

/-- One sandboxed interpreter session: its global namespace. -/
structure PluginLoader where
  globals : List (String × GVal)

/-- Embedding of the `PluginError` enum (mod.rs lines 47-63). `luaError`
is the `LuaError` variant, the spec's `InterpreterError` kind. -/
inductive PluginError where
  | notFound (msg : String)
  | loadError (msg : String)
  | luaError (msg : String)
  | ioError (msg : String)
  | disabled (msg : String)
deriving DecidableEq, Repr

/-- Result of evaluating a Lua chunk as a top-level script: either a
raised error or a resulting value. -/
inductive EvalResult where
  | raise (msg : String)
  | value (v : LuaValue)

/-- A Lua chunk, modelled by its observable behaviour when evaluated in a
fresh session: the evaluation result, and the global bindings the chunk
establishes (its hook functions and any other globals it sets). -/
structure Script where
  eval : EvalResult
  defines : List (String × GVal)

/-- A plugin directory as `load_from_dir` observes it: its path, and its
`init.lua` entry file — `none` when the file is absent,
`some (.error m)` when reading it fails with an I/O error, and
`some (.ok s)` when it holds the chunk `s`. -/
structure PluginDirM where
  path : String
  init : Option (Except String Script)

/-- Embedding of the `PluginInfo` struct (mod.rs lines 13-27). -/
structure PluginInfo where
  name : String
  version : String
  author : Option String
  description : Option String
  path : String
  enabled : Bool

/-- The global bindings `setup_sandbox` establishes in a fresh session,
as seen by the manager layer: the four nil'd globals and the two host
bridge functions (which return normally). -/
def sandboxBindings : List (String × GVal) :=
  [ ("os", .data .nil),
    ("io", .data .nil),
    ("loadfile", .data .nil),
    ("dofile", .data .nil),
    ("log", .gfn (fun _ => .ok)),
    ("print", .gfn (fun _ => .ok)) ]

/-- Overlay the bindings a chunk defines on a base namespace, in order. -/
def applyDefines (base : List (String × GVal)) (defs : List (String × GVal)) :
    List (String × GVal) :=
  defs.foldl (fun env p => alistInsert env p.1 p.2) base

/-- The session obtained by evaluating chunk `s` in a fresh sandboxed
interpreter. -/
def sessionOf (s : Script) : PluginLoader :=
  ⟨applyDefines sandboxBindings s.defines⟩

/-- Embedding of `PluginLoader::call_function` (loader.rs lines 103-116):
look up the global `func_name`; when it is bound to a function, call it,
mapping a guest-side failure to the `LuaError` kind; when it is unbound
or bound to a non-function value, fail with `NotFound(func_name)`. -/
def call_function (l : PluginLoader) (func_name : String) (arg : CallArg) :
    Except PluginError Unit :=
  match alistLookup l.globals func_name with
  | some (.gfn body) =>
      match body arg with
      | .ok => .ok ()
      | .raise msg => .error (.luaError msg)
  | _ => .error (.notFound func_name)

/-- Lua-style string coercion of one value, as mlua's `FromLua for
String` performs it via `Lua::coerce_string`: strings convert to
themselves, numbers to their `tostring` rendering, and every other type
fails (mlua's error reads "expected string or number"). -/
def luaCoerceString : LuaValue → Option String
  | .str s => some s
  | .number repr => some repr
  | _ => none

/-- String conversion of a table field, as the loader requests it:
`plugin_table.get::<String>(key)` looks the field up and coerces it,
succeeding on string-valued and number-valued fields. -/
def fieldStr (fields : List (String × LuaValue)) (key : String) : Option String :=
  match alistLookup fields key with
  | some v => luaCoerceString v
  | none => none

/-- Embedding of `PluginLoader::load_plugin_code` (loader.rs lines
72-100): evaluate the chunk; a raised error or a non-table result is a
`LoadError`; otherwise extract the descriptor, defaulting `name` to
"Unknown" and `version` to "0.0.0" when the field is absent or not a
string, with `author`/`description` optional; the descriptor is stored
with `enabled := true`. Returns the descriptor together with the session
the evaluation produced. -/
def load_plugin_code (s : Script) (plugin_dir : String) :
    Except PluginError (PluginInfo × PluginLoader) :=
  match s.eval with
  | .raise msg => .error (.loadError ("Failed to load plugin: " ++ msg))
  | .value v =>
      match v with
      | .table fields =>
          .ok ({ name := (fieldStr fields "name").getD "Unknown",
                 version := (fieldStr fields "version").getD "0.0.0",
                 author := fieldStr fields "author",
                 description := fieldStr fields "description",
                 path := plugin_dir,
                 enabled := true },
               sessionOf s)
      | _ => .error (.loadError "Failed to load plugin: result is not a table")

/-- Embedding of `PluginLoader::load_from_dir` (loader.rs lines 56-69):
`NotFound` when `init.lua` is absent, `IoError` when reading it fails,
otherwise `load_plugin_code` on its contents. -/
def load_from_dir (d : PluginDirM) : Except PluginError (PluginInfo × PluginLoader) :=
  match d.init with
  | none => .error (.notFound ("Plugin init.lua not found in \"" ++ d.path ++ "\""))
  | some (.error msg) => .error (.ioError msg)
  | some (.ok s) => load_plugin_code s d.path

/-! ## JSON marshalling (`call_plugin_with_json`, manager.rs lines 161-181)

Asset records and arbitrary `serde_json::Value` payloads are serialised
abstractly (encoder parameters `encA`/`encJ` standing for
`serde_json::to_string(..).unwrap_or_default()`); the serialisation of a
plain Rust `String` — the payload of `AssetDeleted` — is modelled
concretely, including serde_json's escaping. -/

/-- Lowercase hexadecimal digit, as serde_json emits in escapes. -/
def hexDigit (n : Nat) : Char :=
  if n < 10 then Char.ofNat (48 + n) else Char.ofNat (87 + n)

/-- Escape of one character inside a JSON string literal, per
serde_json: `"` and `\` get a backslash escape; the control characters
BS, TAB, LF, FF, CR get their short escapes; remaining control
characters below 0x20 get `\u00XX`; everything else is emitted as is. -/
def jsonEscapeChar (c : Char) : String :=
  if c = '"' then "\\\""
  else if c = '\\' then "\\\\"
  else if c = Char.ofNat 8 then "\\b"
  else if c = Char.ofNat 9 then "\\t"
  else if c = Char.ofNat 10 then "\\n"
  else if c = Char.ofNat 12 then "\\f"
  else if c = Char.ofNat 13 then "\\r"
  else if c.toNat < 32 then
    "\\u00" ++ String.mk [hexDigit (c.toNat / 16), hexDigit (c.toNat % 16)]
  else String.mk [c]

/-- Model of `serde_json::to_string` applied to a Rust `String`: the
escaped contents wrapped in double quotes. -/
def jsonEncodeString (s : String) : String :=
  "\"" ++ String.join (s.data.map jsonEscapeChar) ++ "\""

/-! ## Plugin manager (`PluginManager`, manager.rs) -/

/-- Embedding of the `PluginManager` struct (manager.rs lines 10-15): the
plugin root directory and the name-keyed registry of loaded plugins. -/
structure PluginManager where
  plugins_dir : String
  plugins : List (String × PluginInfo × PluginLoader)

/-- Embedding of the `PluginEvent` enum (mod.rs lines 31-44). The asset
record type and the `serde_json::Value` payload type are abstract
parameters; the deleted asset's id is its `to_string` rendering. -/
inductive PluginEvent (α γ : Type) where
  | assetCreated (a : α)
  | assetUpdated (a : α)
  | assetDeleted (id : String)
  | appStarted
  | appClosing
  | custom (name : String) (data : γ)

/-- Embedding of `PluginManager::load_plugin` (manager.rs lines 58-71):
construct a fresh sandboxed session, load the directory in it, invoke the
optional `on_load` hook best-effort (its failure is only logged), then
insert the (descriptor, session) pair keyed by the descriptor's name,
replacing any previous entry of that name. On a load failure the error
propagates and the registry is untouched. -/
def load_plugin (m : PluginManager) (d : PluginDirM) :
    Except PluginError PluginInfo × PluginManager :=
  match load_from_dir d with
  | .error e => (.error e, m)
  | .ok (info, loader) =>
      -- `on_load` is attempted here; its result is logged and discarded.
      let _onLoad := call_function loader "on_load" .unit
      (.ok info, { m with plugins := alistInsert m.plugins info.name (info, loader) })

/-- Embedding of `PluginManager::list_plugins` (manager.rs lines 86-88). -/
def list_plugins (m : PluginManager) : List PluginInfo :=
  m.plugins.map (fun p => p.2.1)

/-- Embedding of `PluginManager::get_plugin` (manager.rs lines 91-93). -/
def get_plugin (m : PluginManager) (name : String) : Option PluginInfo :=
  (alistLookup m.plugins name).map (fun q => q.1)

/-- Embedding of `PluginManager::set_plugin_enabled` (manager.rs lines
96-108): when `name` is registered, overwrite that entry's `enabled`
field with the given value; otherwise `NotFound` and no change. -/
def set_plugin_enabled (m : PluginManager) (name : String) (enabled : Bool) :
    Except PluginError Unit × PluginManager :=
  match alistLookup m.plugins name with
  | some _ =>
      (.ok (),
       { m with plugins :=
           alistUpdate (fun q => ({ q.1 with enabled := enabled }, q.2)) m.plugins name })
  | none => (.error (.notFound name), m)

/-- The root plugin directory as `load_all` observes it: whether it
exists, and its immediate entries, each a directory or not, with the
directory model of each. -/
structure RootEntry where
  isDir : Bool
  dir : PluginDirM

/-- Filesystem model of the configured plugin root. -/
structure RootFs where
  present : Bool
  entries : List RootEntry

/-- One iteration of the `load_all` scan (manager.rs lines 36-51): a
non-directory entry is ignored; a directory entry goes to `load_plugin`,
a success appends its descriptor to the accumulated list, a failure is
logged and skipped. -/
def loadAllStep (acc : List PluginInfo × PluginManager) (e : RootEntry) :
    List PluginInfo × PluginManager :=
  if e.isDir then
    match load_plugin acc.2 e.dir with
    | (.ok info, m') => (acc.1 ++ [info], m')
    | (.error _, m') => (acc.1, m')
  else acc

/-- Embedding of `PluginManager::load_all` (manager.rs lines 27-55): when
the root directory is absent it is created (`fs::create_dir_all`) and the
empty list returned; otherwise each entry is scanned by `loadAllStep`,
and the descriptors of the subdirectories that loaded are returned in
enumeration order. -/
def load_all (m : PluginManager) (fs : RootFs) :
    Except PluginError (List PluginInfo) × PluginManager :=
  if fs.present then
    let r := fs.entries.foldl loadAllStep ([], m)
    (.ok r.1, r.2)
  else
    (.ok [], m)

/-- Descriptor a directory yields when loaded in isolation, `none` when
loading it fails; used to state which subdirectories `load_all` reports. -/
def dirLoadInfo (d : PluginDirM) : Option PluginInfo :=
  match load_from_dir d with
  | .ok q => some q.1
  | .error _ => none

/-- One host-to-guest invocation performed by `broadcast_event`: the
plugin's descriptor name, the handler name, the marshalled argument, and
the call's result. -/
structure BCall where
  plugin : String
  handler : String
  arg : CallArg
  result : Except PluginError Unit

/-- Handler name and marshalled payload for one event, per the dispatch
table in `broadcast_event` (manager.rs lines 117-136): asset events carry
the JSON-encoded asset (`encA`), the deleted event carries the
JSON-encoded id string, lifecycle events carry no payload, and a custom
event `name` goes to handler `on_<name>` with its JSON-encoded data
(`encJ`). -/
def eventDispatch {α γ : Type} (encA : α → String) (encJ : γ → String) :
    PluginEvent α γ → String × CallArg
  | .assetCreated a => ("on_asset_created", .str (encA a))
  | .assetUpdated a => ("on_asset_updated", .str (encA a))
  | .assetDeleted id => ("on_asset_deleted", .str (jsonEncodeString id))
  | .appStarted => ("on_app_started", .unit)
  | .appClosing => ("on_app_closing", .unit)
  | .custom name data => ("on_" ++ name, .str (encJ data))

/-- Embedding of `PluginManager::broadcast_event` (manager.rs lines
111-145): walk the registry; skip entries whose `enabled` flag is false;
for each enabled entry perform the one dispatch the event's table row
prescribes. The returned trace lists the performed invocations; every
per-plugin result is consumed here (the Rust function returns `()`), so
no failure reaches the caller and iteration never stops early. -/
def broadcast_event {α γ : Type} (m : PluginManager)
    (encA : α → String) (encJ : γ → String) (event : PluginEvent α γ) : List BCall :=
  m.plugins.filterMap (fun p =>
    if p.2.1.enabled then
      let hd := eventDispatch encA encJ event
      some { plugin := p.2.1.name, handler := hd.1, arg := hd.2,
             result := call_function p.2.2 hd.1 hd.2 }
    else none)

/-- Whether a call result is the `NotFound` kind (the "hook not
implemented" case, which `broadcast_event` treats as routine). -/
def isNotFoundResult : Except PluginError Unit → Bool
  | .error (.notFound _) => true
  | _ => false

/-- Whether a call result is a failure of any kind. -/
def isErrorResult : Except PluginError Unit → Bool
  | .error _ => true
  | _ => false

/-- The per-plugin diagnostics `broadcast_event` logs (manager.rs lines
138-143): a failed call is logged as a warning unless the failure is
`NotFound`, which is the "hook not implemented" case and stays silent. -/
def broadcastWarnings {α γ : Type} (m : PluginManager)
    (encA : α → String) (encJ : γ → String) (event : PluginEvent α γ) : List BCall :=
  (broadcast_event m encA encJ event).filter (fun c =>
    isErrorResult c.result && !isNotFoundResult c.result)

/-! ## Helper lemmas about the model operations -/

theorem alistLookup_mem {β : Type} (ps : List (String × β)) (k : String) (v : β) :
    alistLookup ps k = some v → (k, v) ∈ ps := by
  induction ps with
  | nil => intro h; exact absurd h (by simp)
  | cons p ps ih =>
      intro h
      rw [alistLookup_cons] at h
      by_cases hp : p.1 = k
      · rw [if_pos hp] at h
        injection h with h
        have : p = (k, v) := by
          obtain ⟨p1, p2⟩ := p
          simp only at hp h
          rw [hp, h]
        exact this ▸ List.mem_cons_self _ _
      · rw [if_neg hp] at h
        exact List.mem_cons_of_mem _ (ih h)

theorem alistUpdate_lookup_self {β : Type} (f : β → β) (ps : List (String × β)) (k : String) :
    alistLookup (alistUpdate f ps k) k = (alistLookup ps k).map f := by
  induction ps with
  | nil => simp [alistUpdate, alistLookup]
  | cons p ps ih =>
      by_cases hp : p.1 = k
      · rw [alistUpdate, if_pos hp, alistLookup_cons, alistLookup_cons,
          if_pos hp, if_pos rfl]
        rfl
      · rw [alistUpdate, if_neg hp, alistLookup_cons, alistLookup_cons,
          if_neg hp, if_neg hp, ih]

theorem map_keyIf_id {β : Type} (g : String × β → String × β) (ps : List (String × β))
    (k : String) (h : k ∉ ps.map Prod.fst) :
    ps.map (fun p => if p.1 = k then g p else p) = ps := by
  induction ps with
  | nil => rfl
  | cons p ps ih =>
      simp only [List.map_cons, List.mem_cons] at h
      push_neg at h
      rw [List.map_cons, if_neg (fun hp => h.1 hp.symm), ih h.2]

theorem alistUpdate_eq_map {β : Type} (f : β → β) (ps : List (String × β)) (k : String)
    (hnd : KeysNodup ps) :
    alistUpdate f ps k = ps.map (fun p => if p.1 = k then (p.1, f p.2) else p) := by
  induction ps with
  | nil => rfl
  | cons p ps ih =>
      unfold KeysNodup at hnd
      simp only [List.map_cons, List.nodup_cons] at hnd
      by_cases hp : p.1 = k
      · rw [alistUpdate, if_pos hp, List.map_cons, if_pos hp,
          map_keyIf_id _ ps k (hp ▸ hnd.1)]
        rw [hp]
      · rw [alistUpdate, if_neg hp, List.map_cons, if_neg hp, ih hnd.2]

theorem filter_key_eq_nil {β : Type} (ps : List (String × β)) (k : String)
    (h : k ∉ ps.map Prod.fst) :
    ps.filter (fun p => p.1 == k) = [] := by
  induction ps with
  | nil => rfl
  | cons p ps ih =>
      simp only [List.map_cons, List.mem_cons] at h
      push_neg at h
      rw [List.filter_cons]
      have : (p.1 == k) = false := by
        simp only [beq_eq_false_iff_ne, ne_eq]
        exact fun hp => h.1 hp.symm
      rw [this]
      simp only [Bool.false_eq_true, if_false]
      exact ih h.2

theorem alistLookup_filter_eq {β : Type} (ps : List (String × β)) (k : String) (v : β)
    (hnd : KeysNodup ps) (hv : alistLookup ps k = some v) :
    ps.filter (fun p => p.1 == k) = [(k, v)] := by
  induction ps with
  | nil => exact absurd hv (by simp)
  | cons p ps ih =>
      unfold KeysNodup at hnd
      simp only [List.map_cons, List.nodup_cons] at hnd
      rw [alistLookup_cons] at hv
      by_cases hp : p.1 = k
      · rw [if_pos hp] at hv
        injection hv with hv
        rw [List.filter_cons]
        have hb : (p.1 == k) = true := by simpa using hp
        rw [hb]
        simp only [if_true]
        rw [filter_key_eq_nil ps k (hp ▸ hnd.1)]
        have : p = (k, v) := by
          obtain ⟨p1, p2⟩ := p
          simp only at hp hv
          rw [hp, hv]
        rw [this]
      · rw [if_neg hp] at hv
        rw [List.filter_cons]
        have hb : (p.1 == k) = false := by simpa using hp
        rw [hb]
        simp only [Bool.false_eq_true, if_false]
        exact ih hnd.2 hv

theorem alistInsert_forall {β : Type} (P : String × β → Prop) (ps : List (String × β))
    (k : String) (v : β) (hP : ∀ p ∈ ps, P p) (hkv : P (k, v)) :
    ∀ p ∈ alistInsert ps k v, P p := by
  induction ps with
  | nil => simpa [alistInsert] using hkv
  | cons p ps ih =>
      by_cases hp : p.1 = k
      · rw [alistInsert_cons, if_pos hp]
        intro q hq
        rcases List.mem_cons.mp hq with hq | hq
        · exact hq ▸ hkv
        · exact hP q (List.mem_cons_of_mem _ hq)
      · rw [alistInsert_cons, if_neg hp]
        intro q hq
        rcases List.mem_cons.mp hq with hq | hq
        · exact hq ▸ hP p (List.mem_cons_self _ _)
        · exact ih (fun r hr => hP r (List.mem_cons_of_mem _ hr)) q hq

/-- Success and failure of `load_plugin` are exactly those of
`load_from_dir`; the returned descriptor does not depend on the registry
state. -/
theorem load_plugin_fst (m : PluginManager) (d : PluginDirM) :
    (load_plugin m d).1 = (load_from_dir d).map (fun q => q.1) := by
  unfold load_plugin
  cases h : load_from_dir d with
  | error e => rfl
  | ok q => obtain ⟨info, loader⟩ := q; rfl

/-- Every descriptor `load_from_dir` produces carries `enabled = true`
(loader.rs line 98). -/
theorem load_from_dir_enabled (d : PluginDirM) (i : PluginInfo) (l : PluginLoader)
    (h : load_from_dir d = .ok (i, l)) : i.enabled = true := by
  unfold load_from_dir at h
  cases hd : d.init with
  | none => rw [hd] at h; exact absurd h (by simp)
  | some c =>
      rw [hd] at h
      cases c with
      | error msg => exact absurd h (by simp)
      | ok s =>
          simp only at h
          unfold load_plugin_code at h
          cases he : s.eval with
          | raise msg => rw [he] at h; exact absurd h (by simp)
          | value v =>
              rw [he] at h
              cases v with
              | table fields =>
                  simp only [Except.ok.injEq, Prod.mk.injEq] at h
                  rw [← h.1]
              | nil => exact absurd h (by simp)
              | str s2 => exact absurd h (by simp)
              | number repr => exact absurd h (by simp)
              | other => exact absurd h (by simp)

/-- Shape of every invocation in a broadcast trace: its handler and
argument are the ones the event's dispatch-table row prescribes. -/
theorem broadcast_mem_shape {α γ : Type} (m : PluginManager)
    (encA : α → String) (encJ : γ → String) (event : PluginEvent α γ) (c : BCall)
    (hc : c ∈ broadcast_event m encA encJ event) :
    c.handler = (eventDispatch encA encJ event).1
    ∧ c.arg = (eventDispatch encA encJ event).2 := by
  unfold broadcast_event at hc
  rw [List.mem_filterMap] at hc
  rcases hc with ⟨p, _, hp⟩
  by_cases hen : p.2.1.enabled
  · rw [if_pos hen] at hp
    injection hp with hp
    rw [← hp]
    exact ⟨rfl, rfl⟩
  · rw [if_neg hen] at hp
    exact absurd hp (by simp)

/-- The plugins a broadcast visits are exactly the enabled registry
entries, in registry order, one invocation each, regardless of the
results of the individual calls. -/
theorem broadcast_map_plugin {α γ : Type} (m : PluginManager)
    (encA : α → String) (encJ : γ → String) (event : PluginEvent α γ) :
    (broadcast_event m encA encJ event).map BCall.plugin
      = (m.plugins.filter (fun p => p.2.1.enabled)).map (fun p => p.2.1.name) := by
  unfold broadcast_event
  generalize m.plugins = ps
  induction ps with
  | nil => rfl
  | cons p ps ih =>
      by_cases hen : p.2.1.enabled
      · rw [List.filterMap_cons, if_pos hen, List.filter_cons, hen]
        simp only [if_true, List.map_cons]
        rw [ih]
      · rw [List.filterMap_cons, if_neg hen, List.filter_cons]
        simp only [hen, Bool.false_eq_true, if_false]
        exact ih

/-! ## Claim theorems -/

/-- Claim C1, counterexample: the claim asserts that after session
construction every capability granting filesystem, process or
arbitrary-code-loading access has been stripped from the global
namespace, so that any such attempt by plugin code fails or is
structurally impossible. This is false: `setup_sandbox` removes only
`os`, `io`, `loadfile` and `dofile`, while the base library's `load`
and the package library's `require` survive it, so filesystem-read and
code-loading capabilities remain reachable from the sandboxed global
namespace. -/
theorem C1_sandbox_counterexample :
    canAccess sandboxedGlobals Cap.fsRead = true
    ∧ canAccess sandboxedGlobals Cap.codeLoad = true
    ∧ alistLookup sandboxedGlobals "require" = some (SVal.sfn [Cap.fsRead, Cap.codeLoad])
    ∧ alistLookup sandboxedGlobals "load" = some (SVal.sfn [Cap.codeLoad]) := by
  decide

/-- Claim C1, amended: at construction — inside `PluginLoader::new`,
before any plugin code is evaluated — the sandbox sets the globals `os`,
`io`, `loadfile` and `dofile` to nil and installs the two host bridge
functions `log` and `print`; afterwards no modelled global grants
process execution or filesystem writes, but filesystem reads and
arbitrary code loading remain reachable (through `require`, `package`
and `load`), so the restriction is partial, not the total stripping the
claim states. -/
theorem C1_sandbox_amended :
    alistLookup sandboxedGlobals "os" = some SVal.snil
    ∧ alistLookup sandboxedGlobals "io" = some SVal.snil
    ∧ alistLookup sandboxedGlobals "loadfile" = some SVal.snil
    ∧ alistLookup sandboxedGlobals "dofile" = some SVal.snil
    ∧ alistLookup sandboxedGlobals "log" = some SVal.hostLog
    ∧ alistLookup sandboxedGlobals "print" = some SVal.hostPrint
    ∧ canAccess sandboxedGlobals Cap.procExec = false
    ∧ canAccess sandboxedGlobals Cap.fsWrite = false
    ∧ canAccess sandboxedGlobals Cap.fsRead = true
    ∧ canAccess sandboxedGlobals Cap.codeLoad = true := by
  decide

/-- Claim C2: for every event, `broadcast_event` invokes the handler of
every currently-registered enabled session exactly once (in registry
order) and skips every disabled one, regardless of the outcome of any
individual call — so one plugin's failure never prevents dispatch to the
remaining plugins — and the only per-plugin diagnostics it surfaces are
warnings for failures that are not `NotFound`; a `NotFound` result is
treated as "hook not implemented" and silently ignored. No per-plugin
failure escapes to the caller: every result is consumed inside the
iteration. -/
theorem C2_broadcast_every_enabled_once {α γ : Type} (m : PluginManager)
    (encA : α → String) (encJ : γ → String) (event : PluginEvent α γ) :
    (broadcast_event m encA encJ event).map BCall.plugin
      = (m.plugins.filter (fun p => p.2.1.enabled)).map (fun p => p.2.1.name)
    ∧ (broadcastWarnings m encA encJ event).all
        (fun c => !isNotFoundResult c.result) = true := by
  refine ⟨broadcast_map_plugin m encA encJ event, ?_⟩
  rw [List.all_eq_true]
  intro c hc
  rw [broadcastWarnings, List.mem_filter] at hc
  have hc2 := hc.2
  simp only [Bool.and_eq_true] at hc2
  exact hc2.2

/-- Claim C3, counterexample: the claim says `AssetDeleted` invokes
`on_asset_deleted` with the asset id as string. In the code the id
string is passed through `call_plugin_with_json`, i.e. through
`serde_json::to_string`, so the handler receives the JSON encoding of
the id — the id wrapped in JSON quotes — not the bare id string: for id
`abc123` the delivered payload is `"abc123"` (with quote characters),
which differs from `abc123`. -/
theorem C3_dispatch_counterexample :
    (broadcast_event
        ⟨"plugins",
         [("p",
           { name := "p", version := "0.0.0", author := none, description := none,
             path := "plugins/p", enabled := true },
           ⟨[("on_asset_deleted", GVal.gfn (fun _ => FnOutcome.ok))]⟩)]⟩
        (fun _ : Unit => "") (fun _ : Unit => "")
        (PluginEvent.assetDeleted "abc123")).map BCall.arg
      = [CallArg.str "\"abc123\""]
    ∧ CallArg.str "\"abc123\"" ≠ CallArg.str "abc123" := by
  exact ⟨rfl, by decide⟩

/-- Claim C3, amended: for every event, broadcast dispatches per the
fixed table — `AssetCreated` to `on_asset_created` with the encoded
asset record, `AssetUpdated` to `on_asset_updated` with the encoded
asset record, `AssetDeleted` to `on_asset_deleted` with the JSON
encoding of the asset id string (the id wrapped in JSON quotes),
`AppStarted` to `on_app_started` with no payload, `AppClosing` to
`on_app_closing` with no payload, and `Custom(name, data)` to
`on_<name>` with the encoded data. -/
theorem C3_dispatch_table_amended {α γ : Type} (m : PluginManager)
    (encA : α → String) (encJ : γ → String) (a : α) (id : String)
    (name : String) (data : γ) :
    (broadcast_event m encA encJ (.assetCreated a)).all
      (fun c => c.handler == "on_asset_created" && c.arg == CallArg.str (encA a)) = true
    ∧ (broadcast_event m encA encJ (.assetUpdated a)).all
        (fun c => c.handler == "on_asset_updated" && c.arg == CallArg.str (encA a)) = true
    ∧ (broadcast_event m encA encJ (.assetDeleted id)).all
        (fun c => c.handler == "on_asset_deleted"
          && c.arg == CallArg.str (jsonEncodeString id)) = true
    ∧ (broadcast_event m encA encJ .appStarted).all
        (fun c => c.handler == "on_app_started" && c.arg == CallArg.unit) = true
    ∧ (broadcast_event m encA encJ .appClosing).all
        (fun c => c.handler == "on_app_closing" && c.arg == CallArg.unit) = true
    ∧ (broadcast_event m encA encJ (.custom name data)).all
        (fun c => c.handler == ("on_" ++ name) && c.arg == CallArg.str (encJ data)) = true := by
  refine ⟨?_, ?_, ?_, ?_, ?_, ?_⟩ <;>
    · rw [List.all_eq_true]
      intro c hc
      have hs := broadcast_mem_shape m encA encJ _ c hc
      rw [Bool.and_eq_true, beq_iff_eq, beq_iff_eq]
      exact ⟨hs.1, hs.2⟩

/-- Claim C4: `call_function` on a name not bound to a callable global
always fails with `NotFound` of that name, never with another error
kind; on a name bound to a callable global it invokes it, returning
normally or propagating the guest-side failure as the interpreter-error
kind (`LuaError`), never as `NotFound`. -/
theorem C4_call_function_classification (l : PluginLoader) (func_name : String)
    (arg : CallArg) :
    ((∀ body, alistLookup l.globals func_name ≠ some (GVal.gfn body)) →
      call_function l func_name arg = .error (.notFound func_name))
    ∧ (∀ body, alistLookup l.globals func_name = some (GVal.gfn body) →
        call_function l func_name arg
          = (match body arg with
             | .ok => .ok ()
             | .raise msg => .error (.luaError msg))
        ∧ ∀ s, call_function l func_name arg ≠ .error (.notFound s)) := by
  constructor
  · intro h
    unfold call_function
    cases hl : alistLookup l.globals func_name with
    | none => rfl
    | some g =>
        cases g with
        | data v => rfl
        | gfn body => exact absurd hl (h body)
  · intro body hl
    constructor
    · unfold call_function
      rw [hl]
    · intro s
      unfold call_function
      rw [hl]
      cases hba : body arg <;> simp [hba]

/-- Claim C5: when a directory lacks the `init.lua` entry file,
`load_plugin` returns `NotFound` and the registry is returned unchanged:
no entry is inserted, removed or modified. -/
theorem C5_load_plugin_missing_entry (m : PluginManager) (d : PluginDirM)
    (h : d.init = none) :
    load_plugin m d
      = (.error (.notFound ("Plugin init.lua not found in \"" ++ d.path ++ "\"")), m) := by
  unfold load_plugin load_from_dir
  rw [h]

/-! ## Support lemmas for C7, C8 -/

theorem coherent_names_filter_nil (ps : List (String × PluginInfo × PluginLoader))
    (k : String) (hco : ∀ p ∈ ps, p.2.1.name = p.1) (hk : k ∉ ps.map Prod.fst) :
    (ps.map (fun p => p.2.1)).filter (fun j => j.name == k) = [] := by
  induction ps with
  | nil => rfl
  | cons p ps ih =>
      simp only [List.map_cons, List.mem_cons] at hk
      push_neg at hk
      rw [List.map_cons, List.filter_cons]
      have hname : p.2.1.name = p.1 := hco p (List.mem_cons_self _ _)
      have : (p.2.1.name == k) = false := by
        simp only [beq_eq_false_iff_ne, ne_eq, hname]
        exact fun hp => hk.1 hp.symm
      rw [this]
      simp only [Bool.false_eq_true, if_false]
      exact ih (fun r hr => hco r (List.mem_cons_of_mem _ hr)) hk.2

theorem coherent_names_filter (ps : List (String × PluginInfo × PluginLoader))
    (k : String) (q : PluginInfo × PluginLoader)
    (hnd : KeysNodup ps) (hco : ∀ p ∈ ps, p.2.1.name = p.1)
    (hv : alistLookup ps k = some q) :
    (ps.map (fun p => p.2.1)).filter (fun j => j.name == k) = [q.1] := by
  induction ps with
  | nil => exact absurd hv (by simp)
  | cons p ps ih =>
      unfold KeysNodup at hnd
      simp only [List.map_cons, List.nodup_cons] at hnd
      have hname : p.2.1.name = p.1 := hco p (List.mem_cons_self _ _)
      rw [alistLookup_cons] at hv
      rw [List.map_cons, List.filter_cons]
      by_cases hp : p.1 = k
      · rw [if_pos hp] at hv
        injection hv with hv
        have hb : (p.2.1.name == k) = true := by simp [hname, hp]
        rw [hb]
        simp only [if_true]
        rw [coherent_names_filter_nil ps k
          (fun r hr => hco r (List.mem_cons_of_mem _ hr)) (hp ▸ hnd.1), hv]
      · rw [if_neg hp] at hv
        have hb : (p.2.1.name == k) = false := by
          simp only [beq_eq_false_iff_ne, ne_eq, hname]
          exact hp
        rw [hb]
        simp only [Bool.false_eq_true, if_false]
        exact ih hnd.2 (fun r hr => hco r (List.mem_cons_of_mem _ hr)) hv

theorem loadAllStep_fst (acc : List PluginInfo × PluginManager) (e : RootEntry) :
    (loadAllStep acc e).1
      = acc.1 ++ (if e.isDir then (dirLoadInfo e.dir).toList else []) := by
  unfold loadAllStep
  by_cases he : e.isDir
  · rw [if_pos he, if_pos he]
    have hfst := load_plugin_fst acc.2 e.dir
    rcases hlp : load_plugin acc.2 e.dir with ⟨res, m'⟩
    rw [hlp] at hfst
    unfold dirLoadInfo
    cases hfd : load_from_dir e.dir with
    | ok q =>
        rw [hfd] at hfst
        simp only [Except.map] at hfst
        rw [hfst]
        simp
    | error err =>
        rw [hfd] at hfst
        simp only [Except.map] at hfst
        rw [hfst]
        simp
  · rw [if_neg he, if_neg he]
    simp

theorem load_all_fold (entries : List RootEntry) :
    ∀ (acc : List PluginInfo × PluginManager),
    (entries.foldl loadAllStep acc).1
      = acc.1 ++ entries.filterMap (fun e => if e.isDir then dirLoadInfo e.dir else none) := by
  induction entries with
  | nil => intro acc; simp
  | cons e es ih =>
      intro acc
      rw [List.foldl_cons, ih, loadAllStep_fst, List.filterMap_cons]
      by_cases he : e.isDir
      · rw [if_pos he, if_pos he]
        cases dirLoadInfo e.dir <;> simp
      · rw [if_neg he, if_neg he]
        simp

/-! ## Claim theorems C6-C10 -/

/-- Claim C6, counterexample: the claim says a `name` field of the
wrong (non-string) type yields the default `"Unknown"`. It does not: the
loader's `get::<String>` coerces numbers, so a script declaring the
number `42` as its name loads with name `"42"`, which differs from
`"Unknown"`. -/
theorem C6_descriptor_counterexample :
    load_plugin_code ⟨.value (.table [("name", LuaValue.number "42")]), []⟩ "plugins/n"
      = .ok ({ name := "42", version := "0.0.0", author := none, description := none,
               path := "plugins/n", enabled := true },
             sessionOf ⟨.value (.table [("name", LuaValue.number "42")]), []⟩)
    ∧ ("42" : String) ≠ "Unknown" :=
  ⟨rfl, by decide⟩

/-- Claim C6, amended: for every entry script whose evaluation yields a
table, the extracted descriptor's `name` is the table's `name` field
coerced to a string — the string itself when string-typed, the number's
string rendering when number-typed — and `"Unknown"` when the field is
absent or of a non-coercible type; `version` defaults to `"0.0.0"` the
same way, `author` and `description` are optional (present exactly when
the field coerces), and missing or mistyped metadata never makes the
load fail: the result is always success, with `enabled := true` and the
directory recorded as the source path. -/
theorem C6_descriptor_coercion (s : Script) (plugin_dir : String)
    (fields : List (String × LuaValue)) (h : s.eval = .value (.table fields)) :
    load_plugin_code s plugin_dir
      = .ok ({ name := (fieldStr fields "name").getD "Unknown",
               version := (fieldStr fields "version").getD "0.0.0",
               author := fieldStr fields "author",
               description := fieldStr fields "description",
               path := plugin_dir,
               enabled := true }, sessionOf s) := by
  unfold load_plugin_code
  rw [h]

/-- Claim C7: after two successful loads of plugins declaring the same
name into a well-formed registry, the registry holds exactly one entry
for that name; its (descriptor, session) pair is the later load's, the
plugin list contains exactly one descriptor with that name (the later
one), and the earlier session is no longer reachable. -/
theorem C7_duplicate_name_last_wins (m : PluginManager) (d1 d2 : PluginDirM)
    (i1 i2 : PluginInfo) (l1 l2 : PluginLoader)
    (hnd : KeysNodup m.plugins) (hco : ∀ p ∈ m.plugins, p.2.1.name = p.1)
    (h1 : load_from_dir d1 = .ok (i1, l1)) (h2 : load_from_dir d2 = .ok (i2, l2))
    (hname : i1.name = i2.name) :
    alistLookup ((load_plugin ((load_plugin m d1).2) d2).2).plugins i2.name
      = some (i2, l2)
    ∧ alistLookup ((load_plugin ((load_plugin m d1).2) d2).2).plugins i1.name
        = some (i2, l2)
    ∧ (((load_plugin ((load_plugin m d1).2) d2).2).plugins.filter
        (fun p => p.1 == i2.name)).length = 1
    ∧ (list_plugins ((load_plugin ((load_plugin m d1).2) d2).2)).filter
        (fun j => j.name == i2.name) = [i2] := by
  have e1 : (load_plugin m d1).2
      = { m with plugins := alistInsert m.plugins i1.name (i1, l1) } := by
    unfold load_plugin; rw [h1]
  have e2 : (load_plugin ((load_plugin m d1).2) d2).2
      = { (load_plugin m d1).2 with
          plugins := alistInsert ((load_plugin m d1).2).plugins i2.name (i2, l2) } := by
    unfold load_plugin; rw [h2]
  rw [e2, e1]
  set L2 := alistInsert (alistInsert m.plugins i1.name (i1, l1)) i2.name (i2, l2) with hL2
  have hnd2 : KeysNodup L2 :=
    alistInsert_keys_nodup _ _ _ (alistInsert_keys_nodup _ _ _ hnd)
  have hco2 : ∀ p ∈ L2, p.2.1.name = p.1 :=
    alistInsert_forall _ _ _ _
      (alistInsert_forall _ _ _ _ hco rfl) rfl
  have hlook : alistLookup L2 i2.name = some (i2, l2) :=
    alistLookup_insert_self _ _ _
  refine ⟨hlook, by rw [hname]; exact hlook, ?_, ?_⟩
  · rw [alistLookup_filter_eq L2 i2.name (i2, l2) hnd2 hlook]
    rfl
  · exact coherent_names_filter L2 i2.name (i2, l2) hnd2 hco2 hlook

/-- Claim C8: when the configured plugin root does not exist, `load_all`
creates it and returns the empty descriptor list without error, leaving
the registry untouched; when it exists, each directory entry is passed
to `load_plugin`, a per-subdirectory failure is skipped without aborting
the scan, and the returned list holds the descriptor of every
subdirectory that loaded, in enumeration order. -/
theorem C8_load_all_scan (m : PluginManager) (fs : RootFs) :
    (fs.present = false → load_all m fs = (.ok [], m))
    ∧ (fs.present = true →
        (load_all m fs).1
          = .ok (fs.entries.filterMap
              (fun e => if e.isDir then dirLoadInfo e.dir else none))) := by
  constructor
  · intro h
    unfold load_all
    rw [h]
    simp
  · intro h
    unfold load_all
    rw [h]
    simp only [if_true]
    rw [load_all_fold fs.entries ([], m)]
    rfl

/-- Claim C9: `set_plugin_enabled` on a registered name sets exactly
that entry's `enabled` flag and changes nothing else — the entry's other
descriptor fields and its session survive unchanged, every other
registry entry is untouched, and the root directory is untouched; on an
unregistered name it returns `NotFound` and the registry is returned
unchanged. -/
theorem C9_set_enabled_frame (m : PluginManager) (name : String) (b : Bool) :
    (alistLookup m.plugins name = none →
      set_plugin_enabled m name b = (.error (.notFound name), m))
    ∧ (KeysNodup m.plugins →
        ∀ q, alistLookup m.plugins name = some q →
        set_plugin_enabled m name b
          = (.ok (),
             { m with plugins := m.plugins.map (fun p =>
                 if p.1 = name then (p.1, ({ p.2.1 with enabled := b }, p.2.2))
                 else p) })) := by
  constructor
  · intro h
    unfold set_plugin_enabled
    rw [h]
  · intro hnd q hq
    unfold set_plugin_enabled
    rw [hq]
    rw [alistUpdate_eq_map _ _ _ hnd]

/-- Claim C10: every successful `load_plugin` yields (and stores) a
descriptor with `enabled = true`; consequently, after disabling a
registered plugin via `set_plugin_enabled(name, false)`, reloading a
directory that declares the same name silently re-enables that name:
the registry then maps it to the freshly loaded pair with
`enabled = true`, and a broadcast of any event invokes that plugin's
handler again even though the disable was never reverted. -/
theorem C10_reload_reenables {α γ : Type} (encA : α → String) (encJ : γ → String)
    (m : PluginManager) (d : PluginDirM) (n : String)
    (q0 : PluginInfo × PluginLoader) (i : PluginInfo) (l : PluginLoader)
    (event : PluginEvent α γ)
    (hreg : alistLookup m.plugins n = some q0)
    (hload : load_from_dir d = .ok (i, l))
    (hname : i.name = n) :
    (∀ (m' : PluginManager) (d' : PluginDirM) (i' : PluginInfo),
        (load_plugin m' d').1 = .ok i' → i'.enabled = true)
    ∧ get_plugin ((set_plugin_enabled m n false).2) n
        = some { q0.1 with enabled := false }
    ∧ alistLookup
        ((load_plugin ((set_plugin_enabled m n false).2) d).2).plugins n
        = some (i, l)
    ∧ i.enabled = true
    ∧ (broadcast_event ((load_plugin ((set_plugin_enabled m n false).2) d).2)
        encA encJ event).any (fun c => c.plugin == n) = true := by
  have hen : i.enabled = true := load_from_dir_enabled d i l hload
  have hm1 : (set_plugin_enabled m n false).2
      = { m with plugins :=
            alistUpdate (fun q => ({ q.1 with enabled := false }, q.2)) m.plugins n } := by
    unfold set_plugin_enabled
    rw [hreg]
  have hm2 : (load_plugin ((set_plugin_enabled m n false).2) d).2
      = { (set_plugin_enabled m n false).2 with
          plugins :=
            alistInsert ((set_plugin_enabled m n false).2).plugins i.name (i, l) } := by
    unfold load_plugin
    rw [hload]
  have hlook : alistLookup
      ((load_plugin ((set_plugin_enabled m n false).2) d).2).plugins n
      = some (i, l) := by
    rw [hm2, hname]
    exact alistLookup_insert_self _ _ _
  refine ⟨?_, ?_, hlook, hen, ?_⟩
  · intro m' d' i' h
    rw [load_plugin_fst] at h
    cases hfd : load_from_dir d' with
    | error e => rw [hfd] at h; exact absurd h (by simp [Except.map])
    | ok q =>
        rw [hfd] at h
        simp only [Except.map, Except.ok.injEq] at h
        exact h ▸ load_from_dir_enabled d' q.1 q.2 (by rw [hfd])
  · rw [hm1]
    unfold get_plugin
    simp only
    rw [alistUpdate_lookup_self, hreg]
    rfl
  · have hmem : (n, (i, l)) ∈
        ((load_plugin ((set_plugin_enabled m n false).2) d).2).plugins :=
      alistLookup_mem _ _ _ hlook
    rw [List.any_eq_true]
    refine ⟨{ plugin := i.name,
              handler := (eventDispatch encA encJ event).1,
              arg := (eventDispatch encA encJ event).2,
              result := call_function l (eventDispatch encA encJ event).1
                          (eventDispatch encA encJ event).2 }, ?_, ?_⟩
    · unfold broadcast_event
      rw [List.mem_filterMap]
      exact ⟨(n, (i, l)), hmem, by rw [if_pos hen]⟩
    · simp [hname]

/-! ## Concrete witnesses -/

/-- Witness for C4: in a session without an `on_load` global the call
fails `NotFound("on_load")`; in a session whose `on_load` raises, the
call fails with the interpreter-error kind carrying the guest message. -/
theorem C4_call_function_witness :
    call_function ⟨[]⟩ "on_load" CallArg.unit = .error (.notFound "on_load")
    ∧ call_function ⟨[("on_load", GVal.gfn (fun _ => FnOutcome.raise "boom"))]⟩
        "on_load" CallArg.unit = .error (.luaError "boom") := by
  constructor
  · exact (C4_call_function_classification ⟨[]⟩ "on_load" CallArg.unit).1
      (fun body h => by simp [alistLookup] at h)
  · exact ((C4_call_function_classification
      ⟨[("on_load", GVal.gfn (fun _ => FnOutcome.raise "boom"))]⟩
      "on_load" CallArg.unit).2 (fun _ => FnOutcome.raise "boom") rfl).1

/-- Witness for C5: loading a directory without `init.lua` into an empty
registry fails `NotFound` and leaves the registry empty. -/
theorem C5_load_plugin_missing_entry_witness :
    load_plugin ⟨"plugins", []⟩ ⟨"plugins/empty", none⟩
      = (.error (.notFound "Plugin init.lua not found in \"plugins/empty\""),
         (⟨"plugins", []⟩ : PluginManager)) :=
  C5_load_plugin_missing_entry ⟨"plugins", []⟩ ⟨"plugins/empty", none⟩ rfl

/-- Witness for C6: a script returning a table whose `name` field is a
boolean-like non-coercible value and whose `version` is the number 2.0
loads successfully with the defaulted name "Unknown", the coerced
version "2.0", the string `author` kept and the absent `description` as
`none`. -/
theorem C6_descriptor_coercion_witness :
    load_plugin_code
        ⟨.value (.table [("name", LuaValue.other), ("version", LuaValue.number "2.0"),
          ("author", LuaValue.str "me")]), []⟩ "plugins/x"
      = .ok ({ name := "Unknown", version := "2.0", author := some "me",
               description := none, path := "plugins/x", enabled := true },
             sessionOf ⟨.value (.table [("name", LuaValue.other),
               ("version", LuaValue.number "2.0"), ("author", LuaValue.str "me")]), []⟩) :=
  C6_descriptor_coercion
    ⟨.value (.table [("name", LuaValue.other), ("version", LuaValue.number "2.0"),
      ("author", LuaValue.str "me")]), []⟩ "plugins/x"
    [("name", LuaValue.other), ("version", LuaValue.number "2.0"),
      ("author", LuaValue.str "me")] rfl

/-- Witness for C7: loading two directories both declaring name "X"
(versions "1.0" then "2.0") into an empty registry leaves exactly one
entry named "X", holding the version-"2.0" descriptor and session. -/
theorem C7_duplicate_name_last_wins_witness :
    alistLookup
        ((load_plugin
            ((load_plugin ⟨"plugins", []⟩
              ⟨"plugins/a", some (.ok ⟨.value (.table [("name", LuaValue.str "X"),
                ("version", LuaValue.str "1.0")]), []⟩)⟩).2)
            ⟨"plugins/b", some (.ok ⟨.value (.table [("name", LuaValue.str "X"),
              ("version", LuaValue.str "2.0")]), []⟩)⟩).2).plugins "X"
      = some ({ name := "X", version := "2.0", author := none, description := none,
                path := "plugins/b", enabled := true }, ⟨sandboxBindings⟩)
    ∧ (((load_plugin
            ((load_plugin ⟨"plugins", []⟩
              ⟨"plugins/a", some (.ok ⟨.value (.table [("name", LuaValue.str "X"),
                ("version", LuaValue.str "1.0")]), []⟩)⟩).2)
            ⟨"plugins/b", some (.ok ⟨.value (.table [("name", LuaValue.str "X"),
              ("version", LuaValue.str "2.0")]), []⟩)⟩).2).plugins.filter
          (fun p => p.1 == "X")).length = 1
    ∧ (list_plugins
        ((load_plugin
            ((load_plugin ⟨"plugins", []⟩
              ⟨"plugins/a", some (.ok ⟨.value (.table [("name", LuaValue.str "X"),
                ("version", LuaValue.str "1.0")]), []⟩)⟩).2)
            ⟨"plugins/b", some (.ok ⟨.value (.table [("name", LuaValue.str "X"),
              ("version", LuaValue.str "2.0")]), []⟩)⟩).2)).filter
        (fun j => j.name == "X")
      = [{ name := "X", version := "2.0", author := none, description := none,
           path := "plugins/b", enabled := true }] := by
  have h := C7_duplicate_name_last_wins ⟨"plugins", []⟩
    ⟨"plugins/a", some (.ok ⟨.value (.table [("name", LuaValue.str "X"),
      ("version", LuaValue.str "1.0")]), []⟩)⟩
    ⟨"plugins/b", some (.ok ⟨.value (.table [("name", LuaValue.str "X"),
      ("version", LuaValue.str "2.0")]), []⟩)⟩
    { name := "X", version := "1.0", author := none, description := none,
      path := "plugins/a", enabled := true }
    { name := "X", version := "2.0", author := none, description := none,
      path := "plugins/b", enabled := true }
    ⟨sandboxBindings⟩ ⟨sandboxBindings⟩
    (by simp [KeysNodup]) (by simp) rfl rfl rfl
  exact ⟨h.1, h.2.2.1, h.2.2.2⟩

/-- Witness for C8: an absent root yields `(ok [], unchanged)`; a
present root with a loadable subdirectory "a" (name "X"), a subdirectory
lacking `init.lua`, and a non-directory entry yields exactly the one
descriptor of "a". -/
theorem C8_load_all_scan_witness :
    load_all ⟨"plugins", []⟩ ⟨false, []⟩ = (.ok [], (⟨"plugins", []⟩ : PluginManager))
    ∧ (load_all ⟨"plugins", []⟩
        ⟨true, [⟨true, ⟨"plugins/a", some (.ok ⟨.value (.table [("name", LuaValue.str "X")]),
                  []⟩)⟩⟩,
                ⟨true, ⟨"plugins/broken", none⟩⟩,
                ⟨false, ⟨"plugins/readme.txt", none⟩⟩]⟩).1
      = .ok [{ name := "X", version := "0.0.0", author := none, description := none,
               path := "plugins/a", enabled := true }] := by
  constructor
  · exact (C8_load_all_scan ⟨"plugins", []⟩ ⟨false, []⟩).1 rfl
  · exact (C8_load_all_scan ⟨"plugins", []⟩
      ⟨true, [⟨true, ⟨"plugins/a", some (.ok ⟨.value (.table [("name", LuaValue.str "X")]),
                []⟩)⟩⟩,
              ⟨true, ⟨"plugins/broken", none⟩⟩,
              ⟨false, ⟨"plugins/readme.txt", none⟩⟩]⟩).2 rfl

/-- Witness for C9: disabling the registered plugin "X" flips exactly
its `enabled` flag, leaving its other fields, its session and the other
entry "Y" untouched; disabling the unregistered "Z" fails `NotFound`
and changes nothing. -/
theorem C9_set_enabled_frame_witness :
    set_plugin_enabled
        ⟨"plugins",
         [("X", { name := "X", version := "1.0", author := none, description := none,
                  path := "plugins/x", enabled := true }, ⟨sandboxBindings⟩),
          ("Y", { name := "Y", version := "2.0", author := some "me", description := none,
                  path := "plugins/y", enabled := true }, ⟨sandboxBindings⟩)]⟩
        "Z" true
      = (.error (.notFound "Z"),
         ⟨"plugins",
          [("X", { name := "X", version := "1.0", author := none, description := none,
                   path := "plugins/x", enabled := true }, ⟨sandboxBindings⟩),
           ("Y", { name := "Y", version := "2.0", author := some "me", description := none,
                   path := "plugins/y", enabled := true }, ⟨sandboxBindings⟩)]⟩)
    ∧ set_plugin_enabled
        ⟨"plugins",
         [("X", { name := "X", version := "1.0", author := none, description := none,
                  path := "plugins/x", enabled := true }, ⟨sandboxBindings⟩),
          ("Y", { name := "Y", version := "2.0", author := some "me", description := none,
                  path := "plugins/y", enabled := true }, ⟨sandboxBindings⟩)]⟩
        "X" false
      = (.ok (),
         ⟨"plugins",
          [("X", { name := "X", version := "1.0", author := none, description := none,
                   path := "plugins/x", enabled := false }, ⟨sandboxBindings⟩),
           ("Y", { name := "Y", version := "2.0", author := some "me", description := none,
                   path := "plugins/y", enabled := true }, ⟨sandboxBindings⟩)]⟩) := by
  constructor
  · exact (C9_set_enabled_frame
      ⟨"plugins",
       [("X", { name := "X", version := "1.0", author := none, description := none,
                path := "plugins/x", enabled := true }, ⟨sandboxBindings⟩),
        ("Y", { name := "Y", version := "2.0", author := some "me", description := none,
                path := "plugins/y", enabled := true }, ⟨sandboxBindings⟩)]⟩
      "Z" true).1 rfl
  · exact (C9_set_enabled_frame
      ⟨"plugins",
       [("X", { name := "X", version := "1.0", author := none, description := none,
                path := "plugins/x", enabled := true }, ⟨sandboxBindings⟩),
        ("Y", { name := "Y", version := "2.0", author := some "me", description := none,
                path := "plugins/y", enabled := true }, ⟨sandboxBindings⟩)]⟩
      "X" false).2 (by simp [KeysNodup])
      ({ name := "X", version := "1.0", author := none, description := none,
         path := "plugins/x", enabled := true }, ⟨sandboxBindings⟩) rfl

/-- Witness for C10: plugin "X" is registered and then disabled;
reloading a directory declaring name "X" re-registers it with
`enabled = true`, and a subsequent `AppStarted` broadcast again performs
an invocation against plugin "X". -/
theorem C10_reload_reenables_witness :
    get_plugin
        ((set_plugin_enabled
          ⟨"plugins",
           [("X", { name := "X", version := "1.0", author := none, description := none,
                    path := "plugins/x", enabled := true }, ⟨sandboxBindings⟩)]⟩
          "X" false).2) "X"
      = some { name := "X", version := "1.0", author := none, description := none,
               path := "plugins/x", enabled := false }
    ∧ alistLookup
        ((load_plugin
          ((set_plugin_enabled
            ⟨"plugins",
             [("X", { name := "X", version := "1.0", author := none, description := none,
                      path := "plugins/x", enabled := true }, ⟨sandboxBindings⟩)]⟩
            "X" false).2)
          ⟨"plugins/x2", some (.ok ⟨.value (.table [("name", LuaValue.str "X")]),
            [("on_app_started", GVal.gfn (fun _ => FnOutcome.ok))]⟩)⟩).2).plugins "X"
      = some ({ name := "X", version := "0.0.0", author := none, description := none,
                path := "plugins/x2", enabled := true },
              sessionOf ⟨.value (.table [("name", LuaValue.str "X")]),
                [("on_app_started", GVal.gfn (fun _ => FnOutcome.ok))]⟩)
    ∧ (broadcast_event
        ((load_plugin
          ((set_plugin_enabled
            ⟨"plugins",
             [("X", { name := "X", version := "1.0", author := none, description := none,
                      path := "plugins/x", enabled := true }, ⟨sandboxBindings⟩)]⟩
            "X" false).2)
          ⟨"plugins/x2", some (.ok ⟨.value (.table [("name", LuaValue.str "X")]),
            [("on_app_started", GVal.gfn (fun _ => FnOutcome.ok))]⟩)⟩).2)
        (fun _ : Unit => "") (fun _ : Unit => "") PluginEvent.appStarted).any
        (fun c => c.plugin == "X") = true := by
  have h := C10_reload_reenables (fun _ : Unit => "") (fun _ : Unit => "")
    ⟨"plugins",
     [("X", { name := "X", version := "1.0", author := none, description := none,
              path := "plugins/x", enabled := true }, ⟨sandboxBindings⟩)]⟩
    ⟨"plugins/x2", some (.ok ⟨.value (.table [("name", LuaValue.str "X")]),
      [("on_app_started", GVal.gfn (fun _ => FnOutcome.ok))]⟩)⟩
    "X"
    ({ name := "X", version := "1.0", author := none, description := none,
       path := "plugins/x", enabled := true }, ⟨sandboxBindings⟩)
    { name := "X", version := "0.0.0", author := none, description := none,
      path := "plugins/x2", enabled := true }
    (sessionOf ⟨.value (.table [("name", LuaValue.str "X")]),
      [("on_app_started", GVal.gfn (fun _ => FnOutcome.ok))]⟩)
    PluginEvent.appStarted rfl rfl rfl
  exact ⟨h.2.1, h.2.2.1, h.2.2.2.2⟩

end AssetManager
